import Mathlib

/-!
# Task manager core of `App.js`

A shallow embedding of the task logic of `TaskManager/TaskManager/App.js`:
the React state (`tasks`, `taskForm`, `modalVisible`, `showDatePicker`,
`filter`), the three mutators `addTask`, `toggleTask`, `deleteTask`, the
derived view `getFilteredTasks` and the empty-list text of the render
function.

Conventions of the embedding.

* A JavaScript array value is a `List`.  The mutators only ever build new
  arrays (`[...tasks, newTask]`, `map`, `filter`), so for them a state
  transition on values is exact.  `getFilteredTasks` calls
  `Array.prototype.sort`, which sorts the receiver in place and returns the
  receiver, so that function is run over a small memory holding the two array
  objects in play (the stored `tasks` array and the array allocated by
  `filter`).
* Strings are Lean strings; `trim`, `localeCompare`, `toISOString` and
  `Date.now().toString()` are host functions and are given executable models
  below.  `localeCompare` is collation, not code point comparison: the two
  orders differ on the sign characters of `toISOString` years outside 0..9999.
* `Date.now()` is an input of `addTask`.
-/

namespace TaskManager

/-! ## Host functions -/

/-- Code points removed by `String.prototype.trim`: the ECMAScript `WhiteSpace`
and `LineTerminator` productions. -/
def isTrimChar (c : Char) : Bool :=
  let n := c.toNat
  n == 9 || n == 10 || n == 11 || n == 12 || n == 13 || n == 32 || n == 160 ||
  n == 5760 || (8192 ≤ n && n ≤ 8202) || n == 8232 || n == 8233 || n == 8239 ||
  n == 8287 || n == 12288 || n == 65279

/-- The host function `String.prototype.trim`: strip white space from both ends. -/
def trim (s : String) : String :=
  String.mk ((s.toList.dropWhile isTrimChar).rdropWhile isTrimChar)

/-- Comparison of two code point sequences in code point order, as -1, 0 or 1:
the order of the operators `<` and `>` on strings, "lexicographic" order. -/
def compareChars : List Char → List Char → Int
  | [], [] => 0
  | [], _ :: _ => -1
  | _ :: _, [] => 1
  | a :: as, b :: bs =>
    if a.toNat < b.toNat then -1
    else if b.toNat < a.toNat then 1
    else compareChars as bs

/-- Primary collation rank of a character, in the root collation order the host
uses for `localeCompare`.  The characters of a `toISOString` text rank
`-` `:` `.` (punctuation), then `+` (symbol), then the digits `0`..`9`, then the
letters `T`, `Z`; no two of them share a rank.  Other characters do not occur in
a `dueDate`; they are ranked after these, by code point, to keep the function
total. -/
def collationRank (c : Char) : Nat :=
  if c = '-' then 0
  else if c = ':' then 1
  else if c = '.' then 2
  else if c = '+' then 3
  else if 48 ≤ c.toNat ∧ c.toNat ≤ 57 then 4 + (c.toNat - 48)
  else if c = 'T' then 14
  else if c = 'Z' then 15
  else 16 + c.toNat

/-- Comparison of two character sequences by collation rank, as -1, 0 or 1: the
first position with different ranks decides, a proper prefix comes first. -/
def compareRanks : List Char → List Char → Int
  | [], [] => 0
  | [], _ :: _ => -1
  | _ :: _, [] => 1
  | a :: as, b :: bs =>
    if collationRank a < collationRank b then -1
    else if collationRank b < collationRank a then 1
    else compareRanks as bs

/-- The host function `String.prototype.localeCompare`, on the strings the
program passes to it.  The only arguments are non-empty `dueDate` strings, which
`addTask` produces with `toISOString`.  On these the collation compares the
primary ranks position by position; in particular `-` sorts before `+`, and both
before the digits, whereas in code point order `+` is below `-`. -/
def localeCompare (a b : String) : Int :=
  compareRanks a.toList b.toList

/-- Decimal digits of `n`, left-padded with zeros to at least `w` digits. -/
def padDigits (w n : Nat) : String :=
  let ds := Nat.toDigits 10 n
  String.mk (List.replicate (w - ds.length) '0' ++ ds)

/-- A JavaScript `Date` holding a valid time value: milliseconds since the epoch. -/
structure JsDate where
  time : Int
deriving DecidableEq, Repr

/-- Year, month and day of the proleptic Gregorian calendar for a day number
counted from 1970-01-01. -/
def civilFromDays (z : Int) : Int × Nat × Nat :=
  let z := z + 719468
  let era := z / 146097
  let doe := (z % 146097).toNat
  let yoe := (doe - doe / 1460 + doe / 36524 - doe / 146096) / 365
  let y : Int := (yoe : Int) + era * 400
  let doy := doe - (365 * yoe + yoe / 4 - yoe / 100)
  let mp := (5 * doy + 2) / 153
  let d := doy - (153 * mp + 2) / 5 + 1
  let m := if mp < 10 then mp + 3 else mp - 9
  (if m ≤ 2 then y + 1 else y, m, d)

/-- The host function `Date.prototype.toISOString`:
`YYYY-MM-DDTHH:mm:ss.sssZ`, with a signed six-digit year outside 0..9999. -/
def toISOString (d : JsDate) : String :=
  let day := d.time / 86400000
  let ms := (d.time % 86400000).toNat
  let ymd := civilFromDays day
  let year :=
    if 0 ≤ ymd.1 ∧ ymd.1 ≤ 9999 then padDigits 4 ymd.1.toNat
    else (if ymd.1 < 0 then "-" else "+") ++ padDigits 6 ymd.1.natAbs
  year ++ "-" ++ padDigits 2 ymd.2.1 ++ "-" ++ padDigits 2 ymd.2.2 ++ "T" ++
    padDigits 2 (ms / 3600000) ++ ":" ++ padDigits 2 (ms / 60000 % 60) ++ ":" ++
    padDigits 2 (ms / 1000 % 60) ++ "." ++ padDigits 3 (ms % 1000) ++ "Z"

/-- The expression `Date.now().toString()` for a clock reading `now`. -/
def numberToString (now : Int) : String :=
  toString now

/-! ## Data model -/

/-- A task object as built by `addTask`.  `dueDate` is an ISO string, or the
empty string when the task has no due date. -/
structure Task where
  id : String
  title : String
  description : String
  dueDate : String
  completed : Bool
deriving DecidableEq, Repr

/-- The draft held in the `taskForm` state: `dueDate` is a `Date` object or `null`. -/
structure TaskForm where
  title : String
  description : String
  dueDate : Option JsDate
deriving DecidableEq, Repr

/-- The values the `filter` state takes: the three `setFilter` calls of the
filter tabs, and the initial value `'all'`. -/
inductive Filter where
  | all
  | active
  | completed
deriving DecidableEq, Repr

/-- The component state of `App`. -/
structure AppState where
  tasks : List Task
  taskForm : TaskForm
  modalVisible : Bool
  showDatePicker : Bool
  filter : Filter
deriving DecidableEq, Repr

/-- The form value `{ title: '', description: '', dueDate: null }`. -/
def emptyForm : TaskForm :=
  { title := "", description := "", dueDate := none }

/-- The state given by the `useState` initial values. -/
def initialState : AppState :=
  { tasks := [], taskForm := emptyForm, modalVisible := false,
    showDatePicker := false, filter := Filter.all }

/-! ## Mutators -/

/-- What one call of `addTask` does: the next state and the text passed to
`alert`, if any. -/
structure AddOutcome where
  state : AppState
  alert : Option String
deriving DecidableEq, Repr

/-- The text of the validation warning. -/
def titleWarning : String :=
  "Please enter a task title before adding!"

/-- The function `addTask`, run in state `s` with clock reading `now`. -/
def addTask (now : Int) (s : AppState) : AddOutcome :=
  if trim s.taskForm.title = "" then
    { state := s, alert := some titleWarning }
  else
    let newTask : Task :=
      { id := numberToString now
        title := trim s.taskForm.title
        description := trim s.taskForm.description
        dueDate :=
          match s.taskForm.dueDate with
          | some d => toISOString d
          | none => ""
        completed := false }
    { state :=
        { s with
          tasks := s.tasks ++ [newTask]
          taskForm := { title := "", description := "", dueDate := none }
          modalVisible := false }
      alert := none }

/-- The function `toggleTask`. -/
def toggleTask (id : String) (s : AppState) : AppState :=
  { s with
    tasks := s.tasks.map fun task =>
      if task.id = id then { task with completed := !task.completed } else task }

/-- The function `deleteTask`. -/
def deleteTask (id : String) (s : AppState) : AppState :=
  { s with tasks := s.tasks.filter fun task => task.id ≠ id }

/-! ## Derived view -/

/-- JavaScript truthiness test `!x` on a string: only the empty string is falsy. -/
def falsy (x : String) : Bool :=
  x == ""

/-- The comparison callback passed to `sort` in `getFilteredTasks`. -/
def compareTasks (a b : Task) : Int :=
  if falsy a.dueDate && falsy b.dueDate then 0
  else if falsy a.dueDate || a.dueDate == "" then 1
  else if falsy b.dueDate || b.dueDate == "" then -1
  else localeCompare a.dueDate b.dueDate

/-- The order the callback asks for: `a` may stay in front of `b`. -/
def keepsOrder (a b : Task) : Prop :=
  compareTasks a b ≤ 0

instance keepsOrderDecidable : DecidableRel keepsOrder :=
  fun a b => inferInstanceAs (Decidable (compareTasks a b ≤ 0))

/-- The element order `Array.prototype.sort` produces with the callback
`compareTasks`.  The host sort is stable (ECMAScript 2019); it is embedded as
stable insertion sort: an element moves in front of an earlier one only when the
callback returns a positive number for the pair. -/
def sortTasks (xs : List Task) : List Task :=
  xs.insertionSort keepsOrder

/-- The two array objects `getFilteredTasks` can touch. -/
inductive ArrayRef where
  | stored
  | fresh
deriving DecidableEq, Repr

/-- Contents of the two array objects: the array held in the `tasks` state and
the array allocated by `filter`. -/
structure Memory where
  stored : List Task
  fresh : List Task
deriving DecidableEq, Repr

/-- Contents of the array object `r`. -/
def Memory.read (m : Memory) : ArrayRef → List Task
  | ArrayRef.stored => m.stored
  | ArrayRef.fresh => m.fresh

/-- Overwrite the contents of the array object `r`. -/
def Memory.write (m : Memory) (r : ArrayRef) (xs : List Task) : Memory :=
  match r with
  | ArrayRef.stored => { m with stored := xs }
  | ArrayRef.fresh => { m with fresh := xs }

/-- The call `tasks.filter(p)`: allocates a new array, leaves `tasks` alone. -/
def filterStored (m : Memory) (p : Task → Bool) : ArrayRef × Memory :=
  (ArrayRef.fresh, { m with fresh := m.stored.filter p })

/-- The call `r.sort(compareTasks)`: sorts the array object `r` in place and
returns `r` itself. -/
def sortInPlace (m : Memory) (r : ArrayRef) : ArrayRef × Memory :=
  (r, m.write r (sortTasks (m.read r)))

/-- What one call of `getFilteredTasks` leaves behind: the array object it
returns and the memory after the call. -/
structure ViewOutcome where
  result : ArrayRef
  memory : Memory
deriving DecidableEq, Repr

/-- The elements of the returned array. -/
def ViewOutcome.visible (v : ViewOutcome) : List Task :=
  v.memory.read v.result

/-- The elements of the array held in the `tasks` state after the call. -/
def ViewOutcome.storedTasks (v : ViewOutcome) : List Task :=
  v.memory.stored

/-- The function `getFilteredTasks`, run in state `s`. -/
def getFilteredTasks (s : AppState) : ViewOutcome :=
  let m : Memory := { stored := s.tasks, fresh := [] }
  let filteredTasks : ArrayRef × Memory :=
    if s.filter = Filter.active then
      filterStored m fun task => !task.completed
    else if s.filter = Filter.completed then
      filterStored m fun task => task.completed
    else
      (ArrayRef.stored, m)
  let sorted := sortInPlace filteredTasks.2 filteredTasks.1
  { result := sorted.1, memory := sorted.2 }

/-- The tasks a filter value selects, in stored order. -/
def selected (f : Filter) (tasks : List Task) : List Task :=
  match f with
  | Filter.all => tasks
  | Filter.active => tasks.filter fun task => !task.completed
  | Filter.completed => tasks.filter fun task => task.completed

/-- The empty-list text of the render function: the `Text` element guarded by
`getFilteredTasks().length === 0`. -/
def emptyText (s : AppState) : Option String :=
  if (getFilteredTasks s).visible.length = 0 then
    some
      (if s.filter = Filter.active then "No active tasks!"
       else if s.filter = Filter.completed then "No completed tasks!"
       else "No tasks yet. Tap \"Add New Task\" to get started!")
  else none

/-! ## Sessions -/

/-- A user action on the task list: committing a draft at a clock reading,
toggling, deleting. -/
inductive Op where
  | add (draft : TaskForm) (now : Int)
  | toggle (id : String)
  | delete (id : String)
deriving DecidableEq, Repr

/-- Apply one action: for `add`, the draft is typed into the form and `addTask`
is pressed. -/
def applyOp (s : AppState) : Op → AppState
  | Op.add draft now => (addTask now { s with taskForm := draft }).state
  | Op.toggle id => toggleTask id s
  | Op.delete id => deleteTask id s

/-- Apply a sequence of actions from left to right. -/
def runOps (s : AppState) (ops : List Op) : AppState :=
  ops.foldl applyOp s

/-! ## Sample sessions -/

/-- A draft with a title, no description and a due date given as a time value. -/
def draftDue (title : String) (time : Int) : TaskForm :=
  { title := title, description := "", dueDate := some { time := time } }

/-- A draft with a title, no description and no due date. -/
def draftPlain (title : String) : TaskForm :=
  { title := title, description := "", dueDate := none }

/-- Tasks A (due 2024-01-05), B (due 2024-01-05), C (no due date) and
D (due 2024-01-01), added in this order. -/
def sessionABCD : AppState :=
  runOps initialState
    [Op.add (draftDue "A" 1704412800000) 1, Op.add (draftDue "B" 1704412800000) 2,
     Op.add (draftPlain "C") 3, Op.add (draftDue "D" 1704067200000) 4]

/-- Three tasks whose `completed` flags are true, false, true. -/
def sessionTFT : AppState :=
  runOps initialState
    [Op.add (draftPlain "first") 1, Op.add (draftPlain "second") 2,
     Op.add (draftPlain "third") 3, Op.toggle "1", Op.toggle "3"]

/-- Task A (due 2024-01-05) added before task D (due 2024-01-01), filter `all`. -/
def sessionAD : AppState :=
  runOps initialState
    [Op.add (draftDue "A" 1704412800000) 1, Op.add (draftDue "D" 1704067200000) 4]

/-- Task "y10k" (due 10000-01-01) added before task "bce" (due on the first day
of year -1), filter `all`. -/
def sessionSignedYears : AppState :=
  runOps initialState
    [Op.add (draftDue "y10k" 253402300800000) 1, Op.add (draftDue "bce" (-62198755200000)) 2]

/-- Two drafts committed at the same clock reading. -/
def sessionSameClock : AppState :=
  runOps initialState [Op.add (draftPlain "a") 1000, Op.add (draftPlain "b") 1000]

/-- The state with the creation modal open and a draft typed in. -/
def editing (draft : TaskForm) : AppState :=
  { initialState with taskForm := draft, modalVisible := true }

/-- Read a decimal numeral back: the value of the digits `cs` after the value
`acc` of the digits already read. -/
def decodeFrom (acc : Nat) (cs : List Char) : Nat :=
  cs.foldl (fun a c => 10 * a + (c.toNat - 48)) acc

/-- Read back the text of `numberToString`: an optional minus sign, then digits. -/
def decodeNumber (cs : List Char) : Int :=
  match cs with
  | [] => 0
  | c :: rest => if c = '-' then - (decodeFrom 0 rest : Int) else (decodeFrom 0 (c :: rest) : Int)

/-- The clock readings at which the drafts of a session are committed. -/
def clockReadings : List Op → List Int
  | [] => []
  | Op.add _ now :: ops => now :: clockReadings ops
  | Op.toggle _ :: ops => clockReadings ops
  | Op.delete _ :: ops => clockReadings ops

/-! ## Properties of the host function models -/

theorem compareChars_swap (a b : List Char) : compareChars b a = - compareChars a b := by
  induction a generalizing b with
  | nil => cases b <;> simp [compareChars]
  | cons c cs ih => cases b with
    | nil => simp [compareChars]
    | cons d ds =>
      simp only [compareChars]
      split_ifs <;> first | omega | exact ih ds

theorem char_eq_of_toNat {c d : Char} (h1 : ¬ c.toNat < d.toNat) (h2 : ¬ d.toNat < c.toNat) :
    c = d :=
  Char.ext (UInt32.ext (show c.toNat = d.toNat by omega))

theorem char_lt_iff (c d : Char) : c < d ↔ c.toNat < d.toNat := Iff.rfl

theorem compareChars_neg_iff (a b : List Char) : compareChars a b < 0 ↔ a < b := by
  induction a generalizing b with
  | nil => cases b with
    | nil => simp [compareChars]
    | cons d ds => simp [compareChars, List.nil_lt_cons]
  | cons c cs ih => cases b with
    | nil => simp [compareChars]
    | cons d ds =>
      show _ ↔ List.Lex (· < ·) (c :: cs) (d :: ds)
      simp only [compareChars]
      by_cases h1 : c.toNat < d.toNat
      · simp only [h1, if_true]
        exact ⟨fun _ => List.Lex.rel ((char_lt_iff c d).2 h1), fun _ => by omega⟩
      · by_cases h2 : d.toNat < c.toNat
        · simp only [h1, h2, if_true, if_false]
          refine ⟨fun h => by omega, fun h => ?_⟩
          cases h with
          | cons h => omega
          | rel h => exact absurd ((char_lt_iff c d).1 h) h1
        · simp only [h1, h2, if_false]
          have hcd := char_eq_of_toNat h1 h2
          subst hcd
          rw [ih ds]
          exact (List.Lex.cons_iff).symm

theorem compareRanks_self (a : List Char) : compareRanks a a = 0 := by
  induction a with
  | nil => rfl
  | cons c cs ih => simp [compareRanks, ih]

theorem compareRanks_total (a b : List Char) :
    compareRanks a b ≤ 0 ∨ compareRanks b a ≤ 0 := by
  induction a generalizing b with
  | nil => cases b <;> simp [compareRanks]
  | cons c cs ih => cases b with
    | nil => simp [compareRanks]
    | cons d ds =>
      simp only [compareRanks]
      by_cases h1 : collationRank c < collationRank d
      · simp [h1]
      · by_cases h2 : collationRank d < collationRank c
        · simp [h2]
        · simp only [h1, h2, if_false]
          exact ih ds

theorem compareRanks_trans {a b c : List Char}
    (hab : compareRanks a b ≤ 0) (hbc : compareRanks b c ≤ 0) : compareRanks a c ≤ 0 := by
  induction a generalizing b c with
  | nil => cases c <;> simp [compareRanks]
  | cons x xs ih => cases b with
    | nil => simp [compareRanks] at hab
    | cons y ys => cases c with
      | nil => simp [compareRanks] at hbc
      | cons z zs =>
        simp only [compareRanks] at hab hbc ⊢
        by_cases hxy : collationRank x < collationRank y
        · by_cases hyz : collationRank y < collationRank z
          · simp [show collationRank x < collationRank z by omega]
          · by_cases hzy : collationRank z < collationRank y
            · simp [hyz, hzy] at hbc
            · simp [show collationRank x < collationRank z by omega]
        · by_cases hyx : collationRank y < collationRank x
          · simp [hxy, hyx] at hab
          · simp only [hxy, hyx, if_false] at hab
            by_cases hyz : collationRank y < collationRank z
            · simp [show collationRank x < collationRank z by omega]
            · by_cases hzy : collationRank z < collationRank y
              · simp [hyz, hzy] at hbc
              · simp only [hyz, hzy, if_false] at hbc
                simp only [show ¬ collationRank x < collationRank z by omega,
                  show ¬ collationRank z < collationRank x by omega, if_false]
                exact ih hab hbc

theorem localeCompare_self (a : String) : localeCompare a a = 0 :=
  compareRanks_self _

theorem localeCompare_total (a b : String) :
    localeCompare a b ≤ 0 ∨ localeCompare b a ≤ 0 :=
  compareRanks_total _ _

theorem localeCompare_trans {a b c : String}
    (hab : localeCompare a b ≤ 0) (hbc : localeCompare b c ≤ 0) : localeCompare a c ≤ 0 :=
  compareRanks_trans hab hbc

theorem string_lt_of_compareChars {a b : String} (h : compareChars a.toList b.toList < 0) :
    a < b :=
  String.lt_iff_toList_lt.2 ((compareChars_neg_iff _ _).1 h)

/-! ## The comparison callback and the sort -/

theorem falsy_iff (x : String) : falsy x = true ↔ x = "" := by
  simp [falsy]

theorem keepsOrder_iff (a b : Task) :
    keepsOrder a b ↔
      (a.dueDate = "" → b.dueDate = "") ∧
        (a.dueDate ≠ "" → b.dueDate ≠ "" → localeCompare a.dueDate b.dueDate ≤ 0) := by
  unfold keepsOrder compareTasks falsy
  by_cases ha : a.dueDate = "" <;> by_cases hb : b.dueDate = "" <;> simp [ha, hb]

theorem keepsOrder_of_dueDate_eq {a b : Task} (h : a.dueDate = b.dueDate) : keepsOrder a b := by
  rw [keepsOrder_iff]
  exact ⟨fun ha => h ▸ ha, fun _ _ => by rw [h, localeCompare_self]⟩

theorem keepsOrder_total (a b : Task) : keepsOrder a b ∨ keepsOrder b a := by
  simp only [keepsOrder_iff]
  by_cases ha : a.dueDate = "" <;> by_cases hb : b.dueDate = "" <;>
    simp [ha, hb, localeCompare_total]

theorem keepsOrder_trans {a b c : Task} (hab : keepsOrder a b) (hbc : keepsOrder b c) :
    keepsOrder a c := by
  rw [keepsOrder_iff] at hab hbc ⊢
  refine ⟨fun ha => hbc.1 (hab.1 ha), fun ha hc => ?_⟩
  have hb : b.dueDate ≠ "" := fun hb => hc (hbc.1 hb)
  exact localeCompare_trans (hab.2 ha hb) (hbc.2 hb hc)

instance keepsOrderTotal : IsTotal Task keepsOrder :=
  ⟨keepsOrder_total⟩

instance keepsOrderTrans : IsTrans Task keepsOrder :=
  ⟨fun _ _ _ => keepsOrder_trans⟩

theorem sortTasks_sorted (l : List Task) : (sortTasks l).Pairwise keepsOrder :=
  List.sorted_insertionSort keepsOrder l

theorem sortTasks_perm (l : List Task) : (sortTasks l).Perm l :=
  List.perm_insertionSort keepsOrder l

theorem filter_orderedInsert (d : String) (a : Task) (l : List Task) :
    (l.orderedInsert keepsOrder a).filter (fun t => decide (t.dueDate = d)) =
      (a :: l).filter (fun t => decide (t.dueDate = d)) := by
  induction l with
  | nil => rfl
  | cons b l ih =>
    by_cases hab : keepsOrder a b
    · simp only [List.orderedInsert, hab, if_true]
    · have hne : a.dueDate ≠ b.dueDate := fun h => hab (keepsOrder_of_dueDate_eq h)
      simp only [List.orderedInsert, hab, if_false]
      by_cases hb : b.dueDate = d
      · have ha : a.dueDate ≠ d := fun h => hne (h.trans hb.symm)
        rw [List.filter_cons_of_pos (by simpa using hb), ih]
        simp [List.filter_cons, ha, hb]
      · rw [List.filter_cons_of_neg (by simpa using hb), ih]
        simp [List.filter_cons, hb]

theorem filter_sortTasks (d : String) (l : List Task) :
    (sortTasks l).filter (fun t => decide (t.dueDate = d)) =
      l.filter (fun t => decide (t.dueDate = d)) := by
  induction l with
  | nil => rfl
  | cons a l ih =>
    show ((sortTasks l).orderedInsert keepsOrder a).filter _ = _
    rw [filter_orderedInsert, List.filter_cons, List.filter_cons, ih]

theorem visible_eq (s : AppState) :
    (getFilteredTasks s).visible = sortTasks (selected s.filter s.tasks) := by
  cases hf : s.filter <;>
    simp [getFilteredTasks, hf, ViewOutcome.visible, sortInPlace, filterStored, Memory.read,
      Memory.write, selected]

theorem storedTasks_eq (s : AppState) :
    (getFilteredTasks s).storedTasks =
      if s.filter = Filter.all then sortTasks s.tasks else s.tasks := by
  cases hf : s.filter <;>
    simp [getFilteredTasks, hf, ViewOutcome.storedTasks, sortInPlace, filterStored, Memory.read,
      Memory.write]

theorem result_eq (s : AppState) :
    (getFilteredTasks s).result =
      if s.filter = Filter.all then ArrayRef.stored else ArrayRef.fresh := by
  cases hf : s.filter <;> simp [getFilteredTasks, hf, sortInPlace, filterStored]

/-! ## The derived view -/

theorem mem_selected {f : Filter} {tasks : List Task} {a : Task} :
    a ∈ selected f tasks ↔
      a ∈ tasks ∧ (f = Filter.active → a.completed = false) ∧
        (f = Filter.completed → a.completed = true) := by
  cases f <;> simp [selected]

theorem pair_sublist_selected {f : Filter} {tasks : List Task} {a b : Task}
    (hsub : [a, b].Sublist tasks) (ha : a ∈ selected f tasks) (hb : b ∈ selected f tasks) :
    [a, b].Sublist (selected f tasks) := by
  cases f with
  | all => exact hsub
  | active =>
    have h := hsub.filter (fun task => !task.completed)
    have ha2 := (mem_selected.1 ha).2.1 rfl
    have hb2 := (mem_selected.1 hb).2.1 rfl
    simpa [selected, List.filter_cons, ha2, hb2] using h
  | completed =>
    have h := hsub.filter (fun task => task.completed)
    have ha2 := (mem_selected.1 ha).2.2 rfl
    have hb2 := (mem_selected.1 hb).2.2 rfl
    simpa [selected, List.filter_cons, ha2, hb2] using h

theorem mem_visible {s : AppState} {a : Task} :
    a ∈ (getFilteredTasks s).visible ↔ a ∈ selected s.filter s.tasks := by
  rw [visible_eq]
  exact (sortTasks_perm _).mem_iff

/-- C1: two tasks built by `addTask` with due dates in year 10000 and in year -1
are returned with the year -1 task first, although its `dueDate` string is the
larger of the two in string (code point) order: the dated tasks returned are
not in ascending order of their `dueDate` string.  The rest of the ordering
holds for every state: no task without a due date precedes one with a due date,
and tasks with the same `dueDate` string (the empty string for "no due date")
keep the relative order they have in the task list, as a whole group and pair
by pair.  Tasks A, B, C, D of the sample session come out as D, A, B, C. -/
theorem getFilteredTasks_signed_years_not_ascending :
    sessionSignedYears.filter = Filter.all ∧
    sessionSignedYears.tasks.map (fun t => (t.title, t.dueDate)) =
      [("y10k", "+010000-01-01T00:00:00.000Z"), ("bce", "-000001-01-01T00:00:00.000Z")] ∧
    (getFilteredTasks sessionSignedYears).visible.map (fun t => (t.title, t.dueDate)) =
      [("bce", "-000001-01-01T00:00:00.000Z"), ("y10k", "+010000-01-01T00:00:00.000Z")] ∧
    ("+010000-01-01T00:00:00.000Z" : String) < "-000001-01-01T00:00:00.000Z" ∧
    ¬ ((getFilteredTasks sessionSignedYears).visible.Pairwise fun a b =>
        a.dueDate ≠ "" → b.dueDate ≠ "" → a.dueDate ≤ b.dueDate) ∧
    (∀ s : AppState,
      ((getFilteredTasks s).visible.Pairwise fun a b => a.dueDate = "" → b.dueDate = "") ∧
      (∀ d : String,
        (getFilteredTasks s).visible.filter (fun t => decide (t.dueDate = d)) =
          (selected s.filter s.tasks).filter (fun t => decide (t.dueDate = d))) ∧
      (∀ d : String,
        ((getFilteredTasks s).visible.filter (fun t => decide (t.dueDate = d))).Sublist s.tasks) ∧
      (∀ a b : Task, a.dueDate = b.dueDate → [a, b].Sublist s.tasks →
        a ∈ (getFilteredTasks s).visible → b ∈ (getFilteredTasks s).visible →
        [a, b].Sublist (getFilteredTasks s).visible)) ∧
    sessionABCD.filter = Filter.all ∧
    sessionABCD.tasks.map (fun t => (t.title, t.dueDate)) =
      [("A", "2024-01-05T00:00:00.000Z"), ("B", "2024-01-05T00:00:00.000Z"), ("C", ""),
       ("D", "2024-01-01T00:00:00.000Z")] ∧
    (getFilteredTasks sessionABCD).visible.map (fun t => t.title) = ["D", "A", "B", "C"] := by
  have hlt : ("+010000-01-01T00:00:00.000Z" : String) < "-000001-01-01T00:00:00.000Z" :=
    string_lt_of_compareChars (by decide)
  refine ⟨by decide, by decide, by decide, hlt, ?_, fun s => ⟨?_, ?_, ?_, ?_⟩, by decide,
    by decide, by decide⟩
  · intro hp
    have hv : (getFilteredTasks sessionSignedYears).visible =
        [{ id := "2", title := "bce", description := "",
           dueDate := "-000001-01-01T00:00:00.000Z", completed := false },
         { id := "1", title := "y10k", description := "",
           dueDate := "+010000-01-01T00:00:00.000Z", completed := false }] := by decide
    rw [hv] at hp
    have hle := (List.pairwise_cons.1 hp).1 _ (List.mem_singleton_self _) (by decide) (by decide)
    exact absurd hle (not_le.2 hlt)
  · rw [visible_eq]
    exact (sortTasks_sorted _).imp fun h => ((keepsOrder_iff _ _).1 h).1
  · intro d
    rw [visible_eq, filter_sortTasks]
  · intro d
    rw [visible_eq, filter_sortTasks]
    refine (List.filter_sublist _).trans ?_
    cases s.filter
    · exact List.Sublist.refl _
    · exact List.filter_sublist _
    · exact List.filter_sublist _
  · intro a b hab hsub ha hb
    have hsel := pair_sublist_selected hsub (mem_visible.1 ha) (mem_visible.1 hb)
    rw [visible_eq]
    exact List.pair_sublist_insertionSort (keepsOrder_of_dueDate_eq hab) hsel

/-- C3: under `active` the returned sequence is a rearrangement of exactly the
tasks with `completed` false, under `completed` of exactly those with `completed`
true, under `all` of all tasks; for flags true, false, true the active view is
the second task and the completed view the first and third. -/
theorem getFilteredTasks_selects :
    (∀ s : AppState,
      (getFilteredTasks { s with filter := Filter.active }).visible.Perm
        (s.tasks.filter fun t => decide (t.completed = false))) ∧
    (∀ s : AppState,
      (getFilteredTasks { s with filter := Filter.completed }).visible.Perm
        (s.tasks.filter fun t => decide (t.completed = true))) ∧
    (∀ s : AppState, (getFilteredTasks { s with filter := Filter.all }).visible.Perm s.tasks) ∧
    sessionTFT.tasks.map (fun t => t.completed) = [true, false, true] ∧
    (getFilteredTasks { sessionTFT with filter := Filter.active }).visible =
      sessionTFT.tasks.filter (fun t => decide (t.completed = false)) ∧
    (getFilteredTasks { sessionTFT with filter := Filter.active }).visible.map (fun t => t.title) =
      ["second"] ∧
    (getFilteredTasks { sessionTFT with filter := Filter.completed }).visible.map
      (fun t => t.title) = ["first", "third"] := by
  refine ⟨fun s => ?_, fun s => ?_, fun s => ?_, by decide, by decide, by decide, by decide⟩
  · rw [visible_eq]
    refine (sortTasks_perm _).trans ?_
    simp [selected]
  · rw [visible_eq]
    refine (sortTasks_perm _).trans ?_
    simp [selected]
  · rw [visible_eq]
    exact sortTasks_perm _

theorem visible_length (s : AppState) :
    (getFilteredTasks s).visible.length = (selected s.filter s.tasks).length := by
  rw [visible_eq]
  exact (sortTasks_perm _).length_eq

theorem visible_length_after_call (s : AppState) :
    (getFilteredTasks { s with tasks := (getFilteredTasks s).storedTasks }).visible.length =
      (getFilteredTasks s).visible.length := by
  rw [visible_length, visible_length, storedTasks_eq]
  cases hf : s.filter
  · simp only [if_true, selected]
    exact (sortTasks_perm _).length_eq
  · simp [selected]
  · simp [selected]

/-- C9: the empty-list text is shown exactly when `getFilteredTasks` returns an
empty sequence, that is when the filter selects no task; it is then the text of
the current filter, and no text is shown for a non-empty view; the text is the
same whether it is computed before or after the call that fills the list. -/
theorem emptyText_iff_visible_empty (s : AppState) :
    ((emptyText s).isSome = true ↔ (getFilteredTasks s).visible = []) ∧
    ((getFilteredTasks s).visible = [] ↔ selected s.filter s.tasks = []) ∧
    ((getFilteredTasks s).visible = [] →
      emptyText s = some
        (match s.filter with
         | Filter.active => "No active tasks!"
         | Filter.completed => "No completed tasks!"
         | Filter.all => "No tasks yet. Tap \"Add New Task\" to get started!")) ∧
    ((getFilteredTasks s).visible ≠ [] → emptyText s = none) ∧
    emptyText { s with tasks := (getFilteredTasks s).storedTasks } = emptyText s := by
  refine ⟨?_, ?_, ?_, ?_, ?_⟩
  · unfold emptyText
    by_cases h : (getFilteredTasks s).visible = [] <;> simp [h]
  · rw [visible_eq]
    constructor
    · intro h
      have hp := sortTasks_perm (selected s.filter s.tasks)
      rw [h] at hp
      exact hp.symm.eq_nil
    · intro h
      rw [h]
      rfl
  · intro h
    unfold emptyText
    cases hf : s.filter <;> simp [h]
  · intro h
    unfold emptyText
    simp [h]
  · unfold emptyText
    rw [visible_length_after_call]

/-- C2: under filter `all` the function returns the stored array itself, sorted
in place: for A (due 2024-01-05) stored before D (due 2024-01-01) the stored
sequence after the call is D, A.  Under `active` and `completed` the stored
sequence is untouched and the result is the array allocated by `filter`. -/
theorem getFilteredTasks_all_sorts_stored_array :
    sessionAD.filter = Filter.all ∧
    sessionAD.tasks.map (fun t => t.title) = ["A", "D"] ∧
    (getFilteredTasks sessionAD).storedTasks.map (fun t => t.title) = ["D", "A"] ∧
    (getFilteredTasks sessionAD).storedTasks ≠ sessionAD.tasks ∧
    (getFilteredTasks sessionAD).result = ArrayRef.stored ∧
    (∀ s : AppState, s.filter ≠ Filter.all →
      (getFilteredTasks s).storedTasks = s.tasks ∧
        (getFilteredTasks s).result = ArrayRef.fresh) := by
  refine ⟨by decide, by decide, by decide, by decide, by decide, fun s hs => ?_⟩
  rw [storedTasks_eq, result_eq]
  simp [hs]

/-! ## The mutators -/

theorem append_Z_ne_empty (x : String) : x ++ "Z" ≠ "" := by
  intro h
  have hl : (x ++ "Z").length = x.length + 1 := by
    rw [String.length_append]
    rfl
  rw [h] at hl
  exact absurd hl (by simp)

theorem toISOString_ne_empty (d : JsDate) : toISOString d ≠ "" :=
  append_Z_ne_empty _

theorem trim_eq_empty_iff (t : String) :
    trim t = "" ↔ ∀ c ∈ t.toList, isTrimChar c = true := by
  unfold trim
  rw [String.ext_iff, show ("" : String).data = [] from rfl, List.rdropWhile_eq_nil_iff]
  constructor
  · intro h
    have hnil : t.toList.dropWhile isTrimChar = [] := by
      by_contra hne
      have hhead := List.head_dropWhile_not isTrimChar t.toList hne
      rw [h _ (List.head_mem hne)] at hhead
      exact absurd hhead (by simp)
    exact List.dropWhile_eq_nil_iff.1 hnil
  · intro h c hc
    exact h c ((List.dropWhile_sublist isTrimChar).subset hc)

/-- C4: when the trimmed draft title is empty, `addTask` raises the validation
warning and leaves the whole state as it was: same task list, same draft, same
modal visibility. -/
theorem addTask_blank_title (now : Int) (s : AppState) (h : trim s.taskForm.title = "") :
    (addTask now s).alert = some titleWarning ∧
    (addTask now s).state = s ∧
    (addTask now s).state.tasks = s.tasks ∧
    (addTask now s).state.taskForm = s.taskForm ∧
    (addTask now s).state.modalVisible = s.modalVisible := by
  simp [addTask, h]

/-- C4 at a whitespace-only title, with a description and a due date in the
draft and the modal open. -/
theorem addTask_blank_title_witness :
    trim (editing { title := "   ", description := "d", dueDate := some { time := 0 } }).taskForm.title
        = "" ∧
    (editing { title := "   ", description := "d", dueDate := some { time := 0 } }).modalVisible
        = true ∧
    ((addTask 5 (editing { title := "   ", description := "d", dueDate := some { time := 0 } })).alert
        = some titleWarning ∧
      (addTask 5 (editing { title := "   ", description := "d", dueDate := some { time := 0 } })).state
        = editing { title := "   ", description := "d", dueDate := some { time := 0 } } ∧
      (addTask 5 (editing { title := "   ", description := "d", dueDate := some { time := 0 } })).state.tasks
        = (editing { title := "   ", description := "d", dueDate := some { time := 0 } }).tasks ∧
      (addTask 5 (editing { title := "   ", description := "d", dueDate := some { time := 0 } })).state.taskForm
        = (editing { title := "   ", description := "d", dueDate := some { time := 0 } }).taskForm ∧
      (addTask 5 (editing { title := "   ", description := "d", dueDate := some { time := 0 } })).state.modalVisible
        = (editing { title := "   ", description := "d", dueDate := some { time := 0 } }).modalVisible) :=
  ⟨by decide, by decide, addTask_blank_title 5 _ (by decide)⟩

/-- C5: when the trimmed draft title is non-empty, `addTask` appends exactly one
task to the end of the list: trimmed title (non-empty), trimmed description,
`completed` false, due date empty exactly when the draft has none; it empties
the draft, closes the modal and raises no warning. -/
theorem addTask_appends (now : Int) (s : AppState) (h : trim s.taskForm.title ≠ "") :
    ∃ t : Task,
      (addTask now s).state.tasks = s.tasks ++ [t] ∧
      t.title = trim s.taskForm.title ∧
      t.title ≠ "" ∧
      t.description = trim s.taskForm.description ∧
      t.completed = false ∧
      (t.dueDate = "" ↔ s.taskForm.dueDate = none) ∧
      (addTask now s).state.taskForm = emptyForm ∧
      (addTask now s).state.modalVisible = false ∧
      (addTask now s).alert = none := by
  refine ⟨{ id := numberToString now
            title := trim s.taskForm.title
            description := trim s.taskForm.description
            dueDate :=
              match s.taskForm.dueDate with
              | some d => toISOString d
              | none => ""
            completed := false }, ?_, rfl, h, rfl, rfl, ?_, ?_, ?_, ?_⟩
  · simp only [addTask, h, if_false]
  · cases hd : s.taskForm.dueDate with
    | none => simp
    | some d => simp [toISOString_ne_empty]
  · simp [addTask, h, emptyForm]
  · simp [addTask, h]
  · simp [addTask, h]

/-- C5 at the draft "Buy milk" with no description and no due date on the empty
store; the view under filter `all` is then that one task. -/
theorem addTask_appends_witness :
    trim (editing (draftPlain "Buy milk")).taskForm.title ≠ "" ∧
    (∃ t : Task,
      (addTask 7 (editing (draftPlain "Buy milk"))).state.tasks =
        (editing (draftPlain "Buy milk")).tasks ++ [t] ∧
      t.title = trim (editing (draftPlain "Buy milk")).taskForm.title ∧
      t.title ≠ "" ∧
      t.description = trim (editing (draftPlain "Buy milk")).taskForm.description ∧
      t.completed = false ∧
      (t.dueDate = "" ↔ (editing (draftPlain "Buy milk")).taskForm.dueDate = none) ∧
      (addTask 7 (editing (draftPlain "Buy milk"))).state.taskForm = emptyForm ∧
      (addTask 7 (editing (draftPlain "Buy milk"))).state.modalVisible = false ∧
      (addTask 7 (editing (draftPlain "Buy milk"))).alert = none) ∧
    (addTask 7 (editing (draftPlain "Buy milk"))).state.filter = Filter.all ∧
    (getFilteredTasks (addTask 7 (editing (draftPlain "Buy milk"))).state).visible.map
      (fun t => (t.title, t.completed)) = [("Buy milk", false)] :=
  ⟨by decide, addTask_appends 7 _ (by decide), by decide, by decide⟩

theorem toggle_toggle_task (id : String) (t : Task) :
    (fun task : Task => if task.id = id then { task with completed := !task.completed } else task)
      ((fun task : Task =>
        if task.id = id then { task with completed := !task.completed } else task) t) = t := by
  cases t with
  | mk tid title description dueDate completed =>
    by_cases h : tid = id <;> simp [h]

/-- C6: toggling the same id twice in succession gives back the original state,
task list included, so every task has its original `completed` value. -/
theorem toggleTask_twice (id : String) (s : AppState) :
    toggleTask id (toggleTask id s) = s ∧
    (toggleTask id (toggleTask id s)).tasks = s.tasks ∧
    (toggleTask id (toggleTask id s)).tasks.map (fun t => t.completed) =
      s.tasks.map (fun t => t.completed) := by
  have key : toggleTask id (toggleTask id s) = s := by
    cases s with
    | mk tasks form modal picker filter =>
      simp only [toggleTask, List.map_map]
      congr 1
      conv_rhs => rw [← List.map_id tasks]
      exact List.map_congr_left fun t _ => toggle_toggle_task id t
  exact ⟨key, by rw [key], by rw [key]⟩

/-- C7: `toggleTask` keeps the length and the positions of the list; at every
position the id, title, description and due date are as before, a task with the
given id has `completed` negated, a task with another id is unchanged; when no
task has the id the state is unchanged; the other state variables are untouched. -/
theorem toggleTask_frame (id : String) (s : AppState) :
    (toggleTask id s).tasks.length = s.tasks.length ∧
    (∀ (i : Nat) (t : Task), s.tasks[i]? = some t →
      ∃ t2 : Task, (toggleTask id s).tasks[i]? = some t2 ∧
        t2.id = t.id ∧ t2.title = t.title ∧ t2.description = t.description ∧
        t2.dueDate = t.dueDate ∧
        (t.id = id → t2.completed = !t.completed) ∧
        (t.id ≠ id → t2 = t)) ∧
    ((∀ t ∈ s.tasks, t.id ≠ id) → toggleTask id s = s) ∧
    (toggleTask id s).taskForm = s.taskForm ∧
    (toggleTask id s).modalVisible = s.modalVisible ∧
    (toggleTask id s).filter = s.filter := by
  refine ⟨by simp [toggleTask], ?_, ?_, rfl, rfl, rfl⟩
  · intro i t hi
    by_cases h : t.id = id
    · exact ⟨{ t with completed := !t.completed }, by simp [toggleTask, hi, h], rfl, rfl, rfl, rfl,
        fun _ => rfl, fun hne => absurd h hne⟩
    · exact ⟨t, by simp [toggleTask, hi, h], rfl, rfl, rfl, rfl, fun he => absurd he h,
        fun _ => rfl⟩
  · intro hno
    cases s with
    | mk tasks form modal picker filter =>
      simp only [toggleTask]
      congr 1
      conv_rhs => rw [← List.map_id tasks]
      exact List.map_congr_left fun t ht => by simp [hno t ht]

/-- C8: `deleteTask` returns the tasks whose id differs from the given one, each
as often as before and in the original relative order, and no task with the given
id; when no task has the id the state, and so the length and every task, is
unchanged; the other state variables are untouched. -/
theorem deleteTask_removes (id : String) (s : AppState) :
    (deleteTask id s).tasks.Sublist s.tasks ∧
    (∀ t : Task, t ∈ (deleteTask id s).tasks ↔ t ∈ s.tasks ∧ t.id ≠ id) ∧
    (∀ t : Task, t.id ≠ id → (deleteTask id s).tasks.count t = s.tasks.count t) ∧
    (deleteTask id s).tasks.length + s.tasks.countP (fun t => decide (t.id = id)) =
      s.tasks.length ∧
    ((∀ t ∈ s.tasks, t.id ≠ id) →
      deleteTask id s = s ∧ (deleteTask id s).tasks.length = s.tasks.length) ∧
    (deleteTask id s).taskForm = s.taskForm ∧
    (deleteTask id s).modalVisible = s.modalVisible ∧
    (deleteTask id s).filter = s.filter := by
  refine ⟨List.filter_sublist _, ?_, ?_, ?_, ?_, rfl, rfl, rfl⟩
  · intro t
    simp [deleteTask]
  · intro t ht
    simp only [deleteTask]
    rw [List.count_filter]
    simpa using ht
  · simp only [deleteTask]
    induction s.tasks with
    | nil => rfl
    | cons a l ih =>
      by_cases h : a.id = id
      · simp [List.filter_cons, List.countP_cons, h] at ih ⊢
        omega
      · simp [List.filter_cons, List.countP_cons, h] at ih ⊢
        omega
  · intro hno
    have key : deleteTask id s = s := by
      cases s with
      | mk tasks form modal picker filter =>
        simp only [deleteTask]
        congr 1
        exact List.filter_eq_self.2 fun t ht => by simpa using hno t ht
    exact ⟨key, by rw [key]⟩

/-! ## Task ids -/

/-- C10: two drafts committed at the same clock reading get the same id, so a
session from the empty store reaches a task list holding two tasks with id
`"1000"`. -/
theorem addTask_same_clock_same_id :
    sessionSameClock.tasks.map (fun t => (t.id, t.title)) = [("1000", "a"), ("1000", "b")] ∧
    ¬ (sessionSameClock.tasks.map (fun t => t.id)).Nodup := by
  refine ⟨by decide, by decide⟩

/-! ### What does hold for ids: distinct clock readings give distinct ids -/

theorem digitChar_value (k : Nat) (h : k < 10) : (Nat.digitChar k).toNat - 48 = k := by
  interval_cases k <;> rfl

theorem digitChar_ne_minus (k : Nat) (h : k < 10) : Nat.digitChar k ≠ '-' := by
  interval_cases k <;> decide

theorem decodeFrom_toDigitsCore (fuel n : Nat) (ds : List Char) (h : n < fuel) :
    decodeFrom 0 (Nat.toDigitsCore 10 fuel n ds) = decodeFrom n ds := by
  induction fuel generalizing n ds with
  | zero => omega
  | succ fuel ih =>
    have hv := digitChar_value (n % 10) (Nat.mod_lt _ (by decide))
    unfold Nat.toDigitsCore
    by_cases h0 : n / 10 = 0
    · simp only [h0, if_true, decodeFrom, List.foldl_cons, hv]
      congr 1
      omega
    · simp only [h0, if_false]
      rw [ih (n / 10) _ (by omega)]
      simp only [decodeFrom, List.foldl_cons, hv]
      congr 1
      omega

theorem decodeFrom_toDigits (n : Nat) : decodeFrom 0 (Nat.toDigits 10 n) = n :=
  decodeFrom_toDigitsCore (n + 1) n [] (by omega)

theorem toDigitsCore_head (fuel n : Nat) (ds : List Char) :
    ∃ k tl, k < 10 ∧ Nat.toDigitsCore 10 (fuel + 1) n ds = Nat.digitChar k :: tl := by
  induction fuel generalizing n ds with
  | zero =>
    refine ⟨n % 10, ds, Nat.mod_lt _ (by decide), ?_⟩
    unfold Nat.toDigitsCore
    by_cases h0 : n / 10 = 0
    · simp [h0]
    · simp [h0, Nat.toDigitsCore]
  | succ fuel ih =>
    unfold Nat.toDigitsCore
    by_cases h0 : n / 10 = 0
    · exact ⟨n % 10, ds, Nat.mod_lt _ (by decide), by simp [h0]⟩
    · simp only [h0, if_false]
      exact ih (n / 10) _

theorem decodeNumber_toDigits (n : Nat) : decodeNumber (Nat.toDigits 10 n) = (n : Int) := by
  obtain ⟨k, tl, hk, hd⟩ := toDigitsCore_head n n []
  have hv := decodeFrom_toDigits n
  unfold Nat.toDigits at hv ⊢
  rw [hd] at hv ⊢
  simp only [decodeNumber, digitChar_ne_minus k hk, if_false, hv]

theorem decodeNumber_numberToString (i : Int) :
    decodeNumber (numberToString i).toList = i := by
  cases i with
  | ofNat n => exact decodeNumber_toDigits n
  | negSucc n =>
    show decodeNumber ('-' :: Nat.toDigits 10 (n + 1)) = Int.negSucc n
    simp only [decodeNumber, if_true, decodeFrom_toDigits]
    rfl

theorem numberToString_injective {i j : Int} (h : numberToString i = numberToString j) :
    i = j := by
  rw [← decodeNumber_numberToString i, ← decodeNumber_numberToString j, h]

theorem ids_nodup_step (ops : List Op) :
    ∀ (s : AppState) (used : List Int),
      (s.tasks.map fun t => t.id).Nodup →
      (∀ t ∈ s.tasks, ∃ r ∈ used, t.id = numberToString r) →
      (used ++ clockReadings ops).Nodup →
      ((runOps s ops).tasks.map fun t => t.id).Nodup := by
  induction ops with
  | nil => intro s used hnd _ _; exact hnd
  | cons op ops ih =>
    intro s used hnd hused hclock
    cases op with
    | add draft now =>
      have hclock2 : ((used ++ [now]) ++ clockReadings ops).Nodup := by
        simpa [clockReadings] using hclock
      have hnow : now ∉ used := by
        intro hmem
        have := List.nodup_append.1 hclock
        exact this.2.2 hmem (by simp [clockReadings])
      show ((runOps (applyOp s (Op.add draft now)) ops).tasks.map fun t => t.id).Nodup
      by_cases hblank : trim draft.title = ""
      · refine ih _ (used ++ [now]) ?_ ?_ hclock2
        · simpa [applyOp, addTask, hblank] using hnd
        · intro t ht
          have ht2 : t ∈ s.tasks := by simpa [applyOp, addTask, hblank] using ht
          obtain ⟨r, hr, hid⟩ := hused t ht2
          exact ⟨r, List.mem_append_left _ hr, hid⟩
      · refine ih _ (used ++ [now]) ?_ ?_ hclock2
        · simp only [applyOp, addTask, hblank, if_false, List.map_append, List.map_cons,
            List.map_nil]
          refine List.Nodup.append hnd (List.nodup_singleton _) ?_
          intro x hx hx2
          rw [List.mem_singleton] at hx2
          obtain ⟨t, ht, rfl⟩ := List.mem_map.1 hx
          obtain ⟨r, hr, hid⟩ := hused t ht
          have : r = now := numberToString_injective (hid.symm.trans hx2)
          exact hnow (this ▸ hr)
        · intro t ht
          simp only [applyOp, addTask, hblank, if_false, List.mem_append,
            List.mem_singleton] at ht
          rcases ht with ht | rfl
          · obtain ⟨r, hr, hid⟩ := hused t ht
            exact ⟨r, List.mem_append_left _ hr, hid⟩
          · exact ⟨now, by simp, rfl⟩
    | toggle id =>
      show ((runOps (toggleTask id s) ops).tasks.map fun t => t.id).Nodup
      have hids : ((toggleTask id s).tasks.map fun t => t.id) = s.tasks.map fun t => t.id := by
        simp only [toggleTask, List.map_map]
        refine List.map_congr_left fun t _ => ?_
        by_cases h : t.id = id <;> simp [h]
      refine ih _ used (hids ▸ hnd) ?_ (by simpa [clockReadings] using hclock)
      intro t ht
      obtain ⟨t0, ht0, rfl⟩ := List.mem_map.1 (show t ∈ (toggleTask id s).tasks from ht)
      obtain ⟨r, hr, hid⟩ := hused t0 ht0
      refine ⟨r, hr, ?_⟩
      rw [← hid]
      split_ifs <;> rfl
    | delete id =>
      show ((runOps (deleteTask id s) ops).tasks.map fun t => t.id).Nodup
      refine ih _ used ?_ ?_ (by simpa [clockReadings] using hclock)
      · exact hnd.sublist ((List.filter_sublist _).map _)
      · intro t ht
        exact hused t ((List.filter_sublist _).subset ht)

theorem ids_nodup_of_distinct_readings (ops : List Op) (h : (clockReadings ops).Nodup) :
    ((runOps initialState ops).tasks.map fun t => t.id).Nodup :=
  ids_nodup_step ops initialState [] List.nodup_nil (fun _ ht => absurd ht (List.not_mem_nil _))
    (by simpa using h)

end TaskManager
